import Mathlib

/-!
Verification development for the request-handling layer of a social-media
video download API (single source file `src/main.py`).

The embedding translates the pure logic of the handlers: the filename
sanitizer, the two format selectors, the Gladia compatibility check, the
temp-file resolution scan, the streaming cleanup generator, and the
response header construction.  Strings are modelled as Lean `String`
(a list of unicode codepoints, matching Python `str`), machine integers
as `Nat`/`Int`, Python `None`-able values as `Option`, and raised
exceptions as `Except` values.
-/

namespace SMVD

set_option maxRecDepth 40000

/- ## Filename sanitizer (src/main.py, `sanitize_filename`) -/

/-- Characters replaced by `-`: the regex class `[<>:"/\\|?*]`. -/
def badChar (c : Char) : Bool :=
  c == '<' || c == '>' || c == ':' || c == '"' || c == '/' ||
  c == '\\' || c == '|' || c == '?' || c == '*'

/-- Control characters removed by the second regex: `[\x00-\x1f\x7f-\x9f]`. -/
def ctrlChar (c : Char) : Bool :=
  c.toNat ≤ 0x1f || (0x7f ≤ c.toNat && c.toNat ≤ 0x9f)

/-- Characters trimmed from both ends by `filename.strip(' .')`. -/
def stripCh (c : Char) : Bool := c == ' ' || c == '.'

/-- One step of `re.sub(r'[<>:"/\\|?*]', '-', filename)`. -/
def replaceBad (c : Char) : Char := if badChar c then '-' else c

/-- Trim from the left, as Python `strip` does on the leading end. -/
def lstripDots (l : List Char) : List Char := l.dropWhile stripCh

/-- Trim from the right, as Python `strip` does on the trailing end. -/
def rstripDots (l : List Char) : List Char :=
  (l.reverse.dropWhile stripCh).reverse

/-- Python `filename.strip(' .')` on the codepoint list. -/
def stripDots (l : List Char) : List Char := rstripDots (lstripDots l)

/-- The intermediate value after replacement, control stripping and
trimming, i.e. `filename` just before the emptiness/length checks. -/
def sanitizeStripped (l : List Char) : List Char :=
  stripDots ((l.map replaceBad).filter (fun c => !ctrlChar c))

/-- The sanitizer body on the codepoint list: empty results fall back to
`"video"`, and the result is truncated to 200 codepoints. -/
def sanitizeList (l : List Char) : List Char :=
  (if sanitizeStripped l = [] then "video".data else sanitizeStripped l).take 200

/-- Translation of `sanitize_filename` (src/main.py lines 16-34). -/
def sanitize_filename (s : String) : String := ⟨sanitizeList s.data⟩

/- ### Sanitizer lemmas -/

theorem mem_of_mem_dropWhile {p : α → Bool} {l : List α} {c : α}
    (h : c ∈ l.dropWhile p) : c ∈ l :=
  (List.dropWhile_sublist p).subset h

theorem mem_of_mem_rstripDots {l : List Char} {c : Char}
    (h : c ∈ rstripDots l) : c ∈ l := by
  unfold rstripDots at h
  rw [List.mem_reverse] at h
  exact List.mem_reverse.mp (mem_of_mem_dropWhile h)

theorem mem_of_mem_stripDots {l : List Char} {c : Char}
    (h : c ∈ stripDots l) : c ∈ l :=
  mem_of_mem_dropWhile (mem_of_mem_rstripDots h)

theorem head?_dropWhile_false {p : α → Bool} {l : List α} {c : α}
    (h : (l.dropWhile p).head? = some c) : p c = false := by
  have := List.head?_dropWhile_not p l
  rw [h] at this
  exact this

/-- `dropWhile` is a suffix: some prefix `t` was dropped. -/
theorem dropWhile_decomp (p : α → Bool) (l : List α) :
    ∃ t, t ++ l.dropWhile p = l := by
  induction l with
  | nil => exact ⟨[], rfl⟩
  | cons a l ih =>
    by_cases hp : p a
    · obtain ⟨t, ht⟩ := ih
      exact ⟨a :: t, by simp [List.dropWhile_cons, hp, ht]⟩
    · exact ⟨[], by simp [List.dropWhile_cons, hp]⟩

theorem head?_append_left {l₁ l₂ : List α} (h : l₁ ≠ []) :
    (l₁ ++ l₂).head? = l₁.head? := by
  cases l₁ with
  | nil => exact absurd rfl h
  | cons a t => rfl

/-- `rstripDots` only removes from the right, so a nonempty result keeps
the original head. -/
theorem head?_rstripDots {l : List Char} {c : Char}
    (h : (rstripDots l).head? = some c) : l.head? = some c := by
  obtain ⟨t, ht⟩ := dropWhile_decomp stripCh l.reverse
  have hl : l = rstripDots l ++ t.reverse := by
    have := congrArg List.reverse ht
    simpa [rstripDots] using this.symm
  have hne : rstripDots l ≠ [] := by
    intro hnil
    rw [hnil] at h
    exact Option.noConfusion h
  rw [hl, head?_append_left hne, h]

theorem head?_stripDots_false {l : List Char} {c : Char}
    (h : (stripDots l).head? = some c) : stripCh c = false :=
  head?_dropWhile_false (head?_rstripDots h)

theorem getLast?_rstripDots_false {l : List Char} {c : Char}
    (h : (rstripDots l).getLast? = some c) : stripCh c = false := by
  unfold rstripDots at h
  rw [List.getLast?_reverse] at h
  exact head?_dropWhile_false h

theorem getLast?_stripDots_false {l : List Char} {c : Char}
    (h : (stripDots l).getLast? = some c) : stripCh c = false :=
  getLast?_rstripDots_false h

theorem dropWhile_eq_self_of_head {p : α → Bool} {l : List α}
    (h : ∀ c, l.head? = some c → p c = false) : l.dropWhile p = l := by
  cases l with
  | nil => rfl
  | cons a t => simp [List.dropWhile_cons, h a rfl]

theorem rstripDots_eq_self_of_getLast {l : List Char}
    (h : ∀ c, l.getLast? = some c → stripCh c = false) : rstripDots l = l := by
  unfold rstripDots
  rw [dropWhile_eq_self_of_head (fun c hc => h c (by rwa [List.head?_reverse] at hc))]
  exact l.reverse_reverse

theorem stripDots_eq_self {l : List Char}
    (hh : ∀ c, l.head? = some c → stripCh c = false)
    (hl : ∀ c, l.getLast? = some c → stripCh c = false) : stripDots l = l := by
  unfold stripDots lstripDots
  rw [dropWhile_eq_self_of_head hh]
  exact rstripDots_eq_self_of_getLast hl

theorem badChar_replaceBad (c : Char) : badChar (replaceBad c) = false := by
  unfold replaceBad
  by_cases h : badChar c = true
  · rw [if_pos h]; decide
  · rw [if_neg h]
    simpa using h

/-- Every codepoint of the trimmed intermediate is neither a replaced
character nor a control character. -/
theorem sanitizeStripped_chars {l : List Char} {c : Char}
    (h : c ∈ sanitizeStripped l) : badChar c = false ∧ ctrlChar c = false := by
  have hmem := mem_of_mem_stripDots h
  rw [List.mem_filter] at hmem
  obtain ⟨hmap, hctrl⟩ := hmem
  rw [List.mem_map] at hmap
  obtain ⟨a, _, ha⟩ := hmap
  refine ⟨?_, ?_⟩
  · rw [← ha]; exact badChar_replaceBad a
  · simpa using hctrl

theorem video_chars : ∀ c ∈ "video".data,
    badChar c = false ∧ ctrlChar c = false ∧ stripCh c = false := by decide

theorem sanitizeList_chars {l : List Char} {c : Char}
    (h : c ∈ sanitizeList l) : badChar c = false ∧ ctrlChar c = false := by
  unfold sanitizeList at h
  have h' := List.take_subset 200 _ h
  by_cases he : sanitizeStripped l = []
  · rw [if_pos he] at h'
    exact ⟨(video_chars c h').1, (video_chars c h').2.1⟩
  · rw [if_neg he] at h'
    exact sanitizeStripped_chars h'

theorem sanitizeList_ne_nil (l : List Char) : sanitizeList l ≠ [] := by
  unfold sanitizeList
  intro h
  rw [List.take_eq_nil_iff] at h
  rcases h with h | h
  · exact absurd h (by decide)
  · by_cases he : sanitizeStripped l = []
    · rw [if_pos he] at h
      exact absurd h (by decide)
    · rw [if_neg he] at h
      exact he h

theorem head?_take {l : List α} (h : l.head? = some c) :
    (l.take 200).head? = some c := by
  cases l with
  | nil => exact Option.noConfusion h
  | cons a t => simpa [List.take] using h

theorem sanitizeList_head {l : List Char} {c : Char}
    (h : (sanitizeList l).head? = some c) : stripCh c = false := by
  unfold sanitizeList at h
  by_cases he : sanitizeStripped l = []
  · rw [if_pos he] at h
    have : ("video".data.take 200).head? = some 'v' := by decide
    rw [this] at h
    cases h
    decide
  · rw [if_neg he] at h
    obtain ⟨a, ha⟩ := List.exists_mem_of_ne_nil _ he
    have hne : (sanitizeStripped l).head? ≠ none := by
      cases hx : (sanitizeStripped l).head? with
      | none => rw [List.head?_eq_none_iff] at hx; exact absurd hx he
      | some b => exact fun h => Option.noConfusion h
    cases hx : (sanitizeStripped l).head? with
    | none => exact absurd hx hne
    | some b =>
      rw [head?_take hx] at h
      cases h
      exact head?_stripDots_false hx

theorem sanitizeList_length (l : List Char) : (sanitizeList l).length ≤ 200 := by
  unfold sanitizeList
  rw [List.length_take]
  exact Nat.min_le_left 200 _

theorem sanitizeList_last {l : List Char}
    (hlen : (sanitizeStripped l).length ≤ 200) {c : Char}
    (h : (sanitizeList l).getLast? = some c) : stripCh c = false := by
  unfold sanitizeList at h
  by_cases he : sanitizeStripped l = []
  · rw [if_pos he, List.take_of_length_le (by decide)] at h
    have : "video".data.getLast? = some 'o' := by decide
    rw [this] at h
    cases h
    decide
  · rw [if_neg he, List.take_of_length_le hlen] at h
    exact getLast?_stripDots_false h

theorem map_eq_self_of {f : α → α} {l : List α}
    (h : ∀ c ∈ l, f c = c) : l.map f = l := by
  induction l with
  | nil => rfl
  | cons a t ih =>
    rw [List.map_cons, h a (List.mem_cons_self a t),
      ih (fun c hc => h c (List.mem_cons_of_mem a hc))]

/-- When no truncation happens, the sanitizer output is a fixed point of
the whole pipeline. -/
theorem sanitizeList_idem {l : List Char}
    (hlen : (sanitizeStripped l).length ≤ 200) :
    sanitizeList (sanitizeList l) = sanitizeList l := by
  have hchars := fun c hc => sanitizeList_chars (l := l) (c := c) hc
  have hmap : (sanitizeList l).map replaceBad = sanitizeList l :=
    map_eq_self_of (fun c hc => by
      unfold replaceBad
      rw [if_neg (by rw [(hchars c hc).1]; exact fun h => Bool.noConfusion h)])
  have hfilter : (sanitizeList l).filter (fun c => !ctrlChar c) = sanitizeList l :=
    List.filter_eq_self.mpr (fun c hc => by rw [(hchars c hc).2]; rfl)
  have hstrip : stripDots (sanitizeList l) = sanitizeList l := by
    refine stripDots_eq_self (fun c hc => sanitizeList_head hc) ?_
    intro c hc
    exact sanitizeList_last hlen hc
  have hs : sanitizeStripped (sanitizeList l) = sanitizeList l := by
    unfold sanitizeStripped
    rw [hmap, hfilter, hstrip]
  have hlen2 : (sanitizeList l).length ≤ 200 := sanitizeList_length l
  calc sanitizeList (sanitizeList l)
      = (if sanitizeStripped (sanitizeList l) = [] then "video".data
          else sanitizeStripped (sanitizeList l)).take 200 := rfl
    _ = (sanitizeList l).take 200 := by rw [hs, if_neg (sanitizeList_ne_nil l)]
    _ = sanitizeList l := List.take_of_length_le hlen2

theorem stripCh_false_iff {c : Char} (h : stripCh c = false) :
    c ≠ ' ' ∧ c ≠ '.' := by
  simpa [stripCh] using h

/- ### C1 and C7 -/

/-- C1 (amended): for every input string, `sanitize_filename` returns a
non-empty string containing none of the replaced characters and no
control character, with no leading space or period and at most 200
codepoints; whenever the trimmed intermediate result fits in 200
codepoints (so the final truncation is a no-op) the output also has no
trailing space or period.  Truncation itself can leave a trailing space
or period, so the unconditional trailing-character part of the original
claim is false. -/
theorem c1_sanitize_output (s : String) :
    sanitize_filename s ≠ ""
    ∧ (∀ c ∈ (sanitize_filename s).data, badChar c = false ∧ ctrlChar c = false)
    ∧ (∀ c, (sanitize_filename s).data.head? = some c → c ≠ ' ' ∧ c ≠ '.')
    ∧ (sanitize_filename s).data.length ≤ 200
    ∧ ((sanitizeStripped s.data).length ≤ 200 →
        ∀ c, (sanitize_filename s).data.getLast? = some c → c ≠ ' ' ∧ c ≠ '.') := by
  refine ⟨?_, ?_, ?_, ?_, ?_⟩
  · intro h
    exact sanitizeList_ne_nil s.data (congrArg String.data h)
  · intro c hc
    exact sanitizeList_chars hc
  · intro c hc
    exact stripCh_false_iff (sanitizeList_head hc)
  · exact sanitizeList_length s.data
  · intro hlen c hc
    exact stripCh_false_iff (sanitizeList_last hlen hc)

/-- Witness for C1's amended theorem at the concrete input `" a?b. "`. -/
theorem c1_sanitize_output_witness :
    (sanitizeStripped " a?b. ".data).length ≤ 200
    ∧ (sanitize_filename " a?b. " ≠ ""
       ∧ (∀ c ∈ (sanitize_filename " a?b. ").data, badChar c = false ∧ ctrlChar c = false)
       ∧ (∀ c, (sanitize_filename " a?b. ").data.head? = some c → c ≠ ' ' ∧ c ≠ '.')
       ∧ (sanitize_filename " a?b. ").data.length ≤ 200
       ∧ ((sanitizeStripped " a?b. ".data).length ≤ 200 →
           ∀ c, (sanitize_filename " a?b. ").data.getLast? = some c → c ≠ ' ' ∧ c ≠ '.')) :=
  ⟨by decide, c1_sanitize_output " a?b. "⟩

/-- An input whose trimmed intermediate is 201 codepoints long and whose
200th codepoint is a period: truncation reintroduces a trailing period. -/
def truncInput : String := ⟨List.replicate 199 'a' ++ ['.', 'b']⟩

/-- C1 counterexample: on `truncInput` (199 `a`s, then `.`, then `b`) the
sanitized output ends in a period, refuting the claim that the output
never has a trailing period. -/
theorem c1_counterexample :
    (sanitize_filename truncInput).data.getLast? = some '.' := by decide

/-- C7 (amended): `sanitize_filename` is idempotent on every input whose
trimmed intermediate result has at most 200 codepoints (no truncation).
A truncated output can end in a space or period, which a second
application strips again, so idempotence fails in general. -/
theorem c7_sanitize_idempotent (s : String)
    (h : (sanitizeStripped s.data).length ≤ 200) :
    sanitize_filename (sanitize_filename s) = sanitize_filename s :=
  congrArg String.mk (sanitizeList_idem h)

/-- Witness for C7's amended theorem at the concrete input `"a<b>c"`. -/
theorem c7_sanitize_idempotent_witness :
    (sanitizeStripped "a<b>c".data).length ≤ 200
    ∧ sanitize_filename (sanitize_filename "a<b>c") = sanitize_filename "a<b>c" :=
  ⟨by decide, c7_sanitize_idempotent "a<b>c" (by decide)⟩

/-- Another input that triggers truncation into a trailing period. -/
def idemInput : String := ⟨List.replicate 199 'b' ++ ['.', 'c']⟩

/-- C7 counterexample: applying the sanitizer twice to `idemInput`
(199 `b`s, then `.`, then `c`) differs from applying it once, refuting
unrestricted idempotence. -/
theorem c7_counterexample :
    sanitize_filename (sanitize_filename idemInput) ≠ sanitize_filename idemInput := by
  decide

/- ## Data model: yt-dlp format dictionaries and metadata

A format dictionary is modelled by the fields the handlers read.  A field
that may be missing from the dictionary (`f.get(...)` returning `None`)
is an `Option`; `f.get('height', 0)` is `height.getD 0`. -/

structure Format where
  format_id : String
  height : Option Int
  vcodec : Option String
  acodec : Option String
  url : Option String
  filesize : Option Nat
deriving DecidableEq

/-- The metadata the handlers read from `ydl.extract_info`. -/
structure MediaInfo where
  title : Option String
  duration : Option Nat
  formats : List Format
deriving DecidableEq

/-- Python exceptions that can escape the handler bodies: fastapi
`HTTPException(status, detail)` (a subclass of `Exception`), `ValueError`
from `int(...)`, and `IndexError` from indexing an empty list. -/
inductive PyExc where
  | http (status : Nat) (detail : String)
  | valueError
  | indexError
deriving DecidableEq

/-- `f.get('height', 0)` as used in both greatest-height loops. -/
def heightD (f : Format) : Int := f.height.getD 0

/-- `f.get('vcodec') != 'none'`: an absent field (`None`) also counts as
having video. -/
def hasVideoB (f : Format) : Bool := !(f.vcodec == some "none")

/-- `f.get('acodec') != 'none'`: an absent field (`None`) also counts as
having audio. -/
def hasAudioB (f : Format) : Bool := !(f.acodec == some "none")

/-- The `"best"` branch condition: both video and audio. -/
def bothAV (f : Format) : Bool := hasVideoB f && hasAudioB f

/- ## Format selectors (src/main.py, `extract_media_url` and
`get_gladia_url`) -/

/-- The greatest-height accumulator loop shared by the `"best"` branch
(lines 66-70, predicate `bothAV`) and the `/gladia-url` selector
(lines 143-147, predicate `hasAudioB`): scan the list, keeping the first
format satisfying `p` and replacing it whenever a strictly greater
`f.get('height', 0)` satisfying `p` appears.  `accStep` is one update of
the `best_format` variable: `if best_format is None or f.get('height', 0)
> best_format.get('height', 0): best_format = f`. -/
def accStep (f : Format) : Option Format → Option Format
  | none => some f
  | some b => if heightD f > heightD b then some f else some b

/-- The loop over `formats` with the `accStep` accumulator update. -/
def maxLoop (p : Format → Bool) : List Format → Option Format → Option Format
  | [], acc => acc
  | f :: rest, acc =>
    if p f then maxLoop p rest (accStep f acc) else maxLoop p rest acc

/-- The `format == "best"` branch (lines 64-76 plus the line 87 check):
greatest-height format with both codecs, else the first format with
audio, else `HTTPException(400, "No suitable format found")`. -/
def selectBest (fs : List Format) : Except PyExc Format :=
  match maxLoop bothAV fs none with
  | some b => .ok b
  | none =>
    match fs.find? hasAudioB with
    | some f => .ok f
    | none => .error (.http 400 "No suitable format found")

/-- The `/gladia-url` selector (lines 142-150): greatest-height format
with audio, else `HTTPException(400, "No audio format found - required
for transcription")`. -/
def selectGladiaAudio (fs : List Format) : Except PyExc Format :=
  match maxLoop hasAudioB fs none with
  | some b => .ok b
  | none => .error (.http 400 "No audio format found - required for transcription")

/- ## The specific-format branch and Python `int` parsing -/

/-- `format.replace('p', '')`: removes every lowercase `p`. -/
def pyRemoveP (s : String) : String := ⟨s.data.filter (fun c => c ≠ 'p')⟩

/-- ASCII decimal digit test. -/
def isAsciiDigit (c : Char) : Bool := 48 ≤ c.toNat && c.toNat ≤ 57

/-- Whitespace characters ignored by Python `int(str)`. -/
def isPySpace (c : Char) : Bool :=
  c == ' ' || c == '\t' || c == '\n' || c == '\r' ||
  c.toNat == 11 || c.toNat == 12

/-- Value of a digit string. -/
def digitsVal (l : List Char) : Nat :=
  l.foldl (fun acc c => acc * 10 + (c.toNat - 48)) 0

/-- Model of Python `int(str)`: optional surrounding whitespace, an
optional sign, then a non-empty run of decimal digits; anything else
raises `ValueError` (`none`).  Underscore digit separators and non-ASCII
digits, which CPython also accepts, are not modelled; no claim depends
on them. -/
def pyIntOfString (s : String) : Option Int :=
  match (s.data.dropWhile isPySpace).reverse.dropWhile isPySpace |>.reverse with
  | [] => none
  | c :: rest =>
    let signed : Bool × List Char :=
      if c = '-' then (true, rest)
      else if c = '+' then (false, rest) else (false, c :: rest)
    if signed.2 ≠ [] ∧ signed.2.all isAsciiDigit then
      some (if signed.1 then -(digitsVal signed.2 : Int) else (digitsVal signed.2 : Int))
    else none

/-- The scan of the `else` branch (lines 79-83): for each format, first
compare `format_id` with the hint; only if that fails is
`int(format.replace('p', ''))` evaluated, so a non-numeric hint raises
`ValueError` at the first format whose id does not match. -/
def specLoop (hint : String) : List Format → Except PyExc (Option Format)
  | [] => .ok none
  | f :: rest =>
    if f.format_id == hint then .ok (some f)
    else
      match pyIntOfString (pyRemoveP hint) with
      | none => .error .valueError
      | some n =>
        if f.height == some n then .ok (some f) else specLoop hint rest

/-- The whole specific-format branch (lines 77-85): scan, then fall back
to `formats[0]` (an `IndexError` on an empty list, which the caller
rules out). -/
def selectSpecific (hint : String) (fs : List Format) : Except PyExc Format :=
  match specLoop hint fs with
  | .error e => .error e
  | .ok (some f) => .ok f
  | .ok none =>
    match fs with
    | [] => .error .indexError
    | f₀ :: _ => .ok f₀

/- ## Gladia compatibility thresholds (src/main.py lines 169-182) -/

/-- The two threshold violations collected into `compatibility_issues`.
The formatted message strings are abstracted to their kind. -/
inductive GIssue where
  | durationExceedsLimit
  | fileSizeExceedsLimit
deriving DecidableEq

/-- Lines 170-182: `duration_minutes = duration / 60 if duration else 0`,
`file_size_mb = file_size / (1024 * 1024) if file_size else 0`, then the
two `> 135` / `> 1000` checks, each clearing `gladia_compatible` and
appending an issue.  Python's exact float division on these integer
ranges is modelled by exact rational division. -/
def gladiaCheck (duration fileSize : Nat) : Bool × List GIssue :=
  let durationMinutes : ℚ := if duration ≠ 0 then (duration : ℚ) / 60 else 0
  let fileSizeMb : ℚ := if fileSize ≠ 0 then (fileSize : ℚ) / (1024 * 1024) else 0
  let s1 : Bool × List GIssue :=
    if durationMinutes > 135 then (false, [.durationExceedsLimit]) else (true, [])
  if fileSizeMb > 1000 then (false, s1.2 ++ [.fileSizeExceedsLimit]) else s1

/- ## Endpoint handler bodies -/

/-- The JSON payload of a successful `/extract-url` response (the fields
built on lines 101-113; `resolution` and the fixed message are omitted,
`gladia_compatible` is the literal `True`). -/
structure ExtractPayload where
  direct_url : String
  title : String
  duration : Nat
  file_size : Nat
  has_audio : Bool
  has_video : Bool
  gladia_compatible : Bool
deriving DecidableEq

/-- The JSON payload of a successful `/gladia-url` response (lines
184-200; the rounded display fields `duration_minutes`/`file_size_mb`
and the echoed request shape are omitted). -/
structure GladiaPayload where
  audio_url : String
  title : String
  duration_seconds : Nat
  file_size_bytes : Nat
  has_audio : Bool
  gladia_compatible : Bool
  compatibility_issues : List GIssue
  warning : Option String
  suggested_language : String
deriving DecidableEq

/-- The try-block body of `extract_media_url` (lines 50-113), after the
metadata fetch.  Every `raise HTTPException(...)` inside the `try` is an
`Except.error`.  `if not direct_url` also treats an empty string as
missing, matching Python falsiness. -/
def runExtractUrl (info : MediaInfo) (hint : String) : Except PyExc ExtractPayload :=
  if info.formats.isEmpty then .error (.http 400 "No video formats found")
  else
    match (if hint == "best" then selectBest info.formats
           else selectSpecific hint info.formats) with
    | .error e => .error e
    | .ok best =>
      let direct_url := best.url.getD ""
      if direct_url = "" then .error (.http 400 "No direct URL found for this format")
      else
        .ok { direct_url := direct_url
              title := sanitize_filename (info.title.getD "video")
              duration := info.duration.getD 0
              file_size := best.filesize.getD 0
              has_audio := hasAudioB best
              has_video := hasVideoB best
              gladia_compatible := true }

/-- Starlette's `HTTPException.__str__` is `"{status_code}: {detail}"`;
other exception reprs are abstracted. -/
def pyStrOfExc : PyExc → String
  | .http s d => toString s ++ ": " ++ d
  | .valueError => "invalid literal for int() with base 10"
  | .indexError => "list index out of range"

/-- The `except Exception` wrapper of `extract_media_url` (lines
115-121): fastapi's `HTTPException` subclasses `Exception`, so even the
handler's own 400-status raises are caught here and re-raised as a 500. -/
def extractUrlResult (info : MediaInfo) (hint : String) :
    Except (Nat × String) ExtractPayload :=
  match runExtractUrl info hint with
  | .ok p => .ok p
  | .error e => .error (500, "Error during URL extraction: " ++ pyStrOfExc e)

/-- Python's `sub in s` on codepoint lists. -/
def containsSub (pat : List Char) : List Char → Bool
  | [] => pat.isEmpty
  | c :: rest => pat.isPrefixOf (c :: rest) || containsSub pat rest

/-- The try-block body of `get_gladia_url` (lines 129-200), after the
metadata fetch. -/
def runGladiaUrl (info : MediaInfo) (language : String) : Except PyExc GladiaPayload :=
  if info.formats.isEmpty then .error (.http 400 "No video formats found")
  else
    match selectGladiaAudio info.formats with
    | .error e => .error e
    | .ok best =>
      let direct_url := best.url.getD ""
      if direct_url = "" then .error (.http 400 "No direct URL found")
      else
        let warning : Option String :=
          if direct_url.data.contains '?' &&
             (containsSub "signature=".data direct_url.data ||
              containsSub "token=".data direct_url.data) then
            some "URL contains authentication parameters that may expire"
          else none
        let duration := info.duration.getD 0
        let file_size := best.filesize.getD 0
        let check := gladiaCheck duration file_size
        .ok { audio_url := direct_url
              title := info.title.getD "video"
              duration_seconds := duration
              file_size_bytes := file_size
              has_audio := true
              gladia_compatible := check.1
              compatibility_issues := check.2
              warning := warning
              suggested_language := language }

/-- The `except Exception` wrapper of `get_gladia_url` (lines 202-208),
with the same status-swallowing behaviour as `/extract-url`. -/
def gladiaUrlResult (info : MediaInfo) (language : String) :
    Except (Nat × String) GladiaPayload :=
  match runGladiaUrl info language with
  | .ok p => .ok p
  | .error e => .error (500, "Error during URL extraction: " ++ pyStrOfExc e)

/-- Status code of an error response. -/
def errStatus : Except (Nat × String) α → Option Nat
  | .error (s, _) => some s
  | .ok _ => none

/- ### Greatest-height loop lemmas -/

theorem accStep_ne_none (f : Format) (acc : Option Format) :
    accStep f acc ≠ none := by
  cases acc with
  | none => simp [accStep]
  | some a =>
    simp only [accStep]
    by_cases h : heightD f > heightD a
    · rw [if_pos h]; exact fun hx => Option.noConfusion hx
    · rw [if_neg h]; exact fun hx => Option.noConfusion hx

theorem accStep_mem (f : Format) (acc : Option Format) (b : Format)
    (h : accStep f acc = some b) : b = f ∨ acc = some b := by
  cases acc with
  | none =>
    simp only [accStep] at h
    exact Or.inl (Option.some.inj h).symm
  | some a =>
    simp only [accStep] at h
    by_cases hgt : heightD f > heightD a
    · rw [if_pos hgt] at h
      exact Or.inl (Option.some.inj h).symm
    · rw [if_neg hgt] at h
      exact Or.inr h

theorem accStep_ge (f : Format) (acc : Option Format) (b : Format)
    (h : accStep f acc = some b) :
    heightD f ≤ heightD b ∧ ∀ a, acc = some a → heightD a ≤ heightD b := by
  cases acc with
  | none =>
    simp only [accStep] at h
    cases Option.some.inj h
    exact ⟨le_refl _, by simp⟩
  | some a =>
    simp only [accStep] at h
    by_cases hgt : heightD f > heightD a
    · rw [if_pos hgt] at h
      cases Option.some.inj h
      refine ⟨le_refl _, ?_⟩
      intro a' ha'
      cases Option.some.inj ha'
      exact le_of_lt hgt
    · rw [if_neg hgt] at h
      cases Option.some.inj h
      refine ⟨not_lt.mp hgt, ?_⟩
      intro a' ha'
      cases Option.some.inj ha'
      exact le_refl _

theorem maxLoop_eq_none {p : Format → Bool} :
    ∀ (fs : List Format) (acc : Option Format), maxLoop p fs acc = none →
      acc = none ∧ ∀ f ∈ fs, p f = false := by
  intro fs
  induction fs with
  | nil => exact fun acc h => ⟨h, by simp⟩
  | cons f rest ih =>
    intro acc h
    unfold maxLoop at h
    by_cases hp : p f
    · rw [if_pos hp] at h
      exact absurd (ih _ h).1 (accStep_ne_none f acc)
    · rw [if_neg hp] at h
      obtain ⟨h1, h2⟩ := ih _ h
      refine ⟨h1, ?_⟩
      intro g hg
      rcases List.mem_cons.mp hg with rfl | hg
      · simpa using hp
      · exact h2 g hg

theorem maxLoop_mem {p : Format → Bool} :
    ∀ (fs : List Format) (acc : Option Format) (b : Format),
      maxLoop p fs acc = some b → b ∈ fs ∨ acc = some b := by
  intro fs
  induction fs with
  | nil => exact fun acc b h => Or.inr h
  | cons f rest ih =>
    intro acc b h
    unfold maxLoop at h
    by_cases hp : p f
    · rw [if_pos hp] at h
      rcases ih _ _ h with hb | hb
      · exact Or.inl (List.mem_cons_of_mem f hb)
      · rcases accStep_mem f acc b hb with heq | hacc
        · rw [heq]
          exact Or.inl (List.mem_cons_self f rest)
        · exact Or.inr hacc
    · rw [if_neg hp] at h
      rcases ih _ _ h with hb | hb
      · exact Or.inl (List.mem_cons_of_mem f hb)
      · exact Or.inr hb

theorem maxLoop_ge {p : Format → Bool} :
    ∀ (fs : List Format) (acc : Option Format) (b : Format),
      maxLoop p fs acc = some b →
      (∀ g ∈ fs, p g = true → heightD g ≤ heightD b)
      ∧ (∀ a, acc = some a → heightD a ≤ heightD b) := by
  intro fs
  induction fs with
  | nil =>
    intro acc b h
    refine ⟨by simp, ?_⟩
    intro a ha
    rw [ha] at h
    cases Option.some.inj h
    exact le_refl _
  | cons f rest ih =>
    intro acc b h
    unfold maxLoop at h
    by_cases hp : p f
    · rw [if_pos hp] at h
      obtain ⟨h1, h2⟩ := ih _ _ h
      cases hacc : accStep f acc with
      | none => exact absurd hacc (accStep_ne_none f acc)
      | some m =>
        have hm : heightD m ≤ heightD b := h2 m hacc
        obtain ⟨hfm, haccm⟩ := accStep_ge f acc m hacc
        refine ⟨?_, ?_⟩
        · intro g hg hpg
          rcases List.mem_cons.mp hg with rfl | hg
          · exact le_trans hfm hm
          · exact h1 g hg hpg
        · intro a ha
          exact le_trans (haccm a ha) hm
    · rw [if_neg hp] at h
      obtain ⟨h1, h2⟩ := ih _ _ h
      refine ⟨?_, h2⟩
      intro g hg hpg
      rcases List.mem_cons.mp hg with rfl | hg
      · exact absurd hpg (by simpa using hp)
      · exact h1 g hg hpg

/- ### C10 -/

/-- C10: in both selectors codec presence is `field != 'none'`, so a
format list in which no entry carries `vcodec`/`acodec` fields at all
(every field absent) makes every entry count as having both codecs:
both selections succeed and return a greatest-height entry. -/
theorem c10_absent_codec_fields (fs : List Format) (hne : fs ≠ [])
    (habs : ∀ f ∈ fs, f.vcodec = none ∧ f.acodec = none) :
    (∃ b, selectBest fs = .ok b ∧ b ∈ fs ∧ ∀ g ∈ fs, heightD g ≤ heightD b)
    ∧ (∃ b, selectGladiaAudio fs = .ok b ∧ b ∈ fs ∧ ∀ g ∈ fs, heightD g ≤ heightD b) := by
  have hav : ∀ f ∈ fs, bothAV f = true := fun f hf => by
    simp [bothAV, hasVideoB, hasAudioB, (habs f hf).1, (habs f hf).2]
  have hau : ∀ f ∈ fs, hasAudioB f = true := fun f hf => by
    simp [hasAudioB, (habs f hf).2]
  obtain ⟨f₀, hf₀⟩ := List.exists_mem_of_ne_nil fs hne
  constructor
  · cases heq : maxLoop bothAV fs none with
    | none =>
      have := (maxLoop_eq_none fs none heq).2 f₀ hf₀
      rw [hav f₀ hf₀] at this
      exact absurd this (by simp)
    | some b =>
      refine ⟨b, by simp [selectBest, heq], ?_, ?_⟩
      · rcases maxLoop_mem fs none b heq with h | h
        · exact h
        · exact Option.noConfusion h
      · intro g hg
        exact (maxLoop_ge fs none b heq).1 g hg (hav g hg)
  · cases heq : maxLoop hasAudioB fs none with
    | none =>
      have := (maxLoop_eq_none fs none heq).2 f₀ hf₀
      rw [hau f₀ hf₀] at this
      exact absurd this (by simp)
    | some b =>
      refine ⟨b, by simp [selectGladiaAudio, heq], ?_, ?_⟩
      · rcases maxLoop_mem fs none b heq with h | h
        · exact h
        · exact Option.noConfusion h
      · intro g hg
        exact (maxLoop_ge fs none b heq).1 g hg (hau g hg)

/-- A two-element format list with every codec field absent. -/
def allAbsentA : Format := ⟨"a", some 100, none, none, none, none⟩

/-- Second entry for the C10 witness list. -/
def allAbsentB : Format := ⟨"b", some 200, none, none, none, none⟩

/-- Witness for C10 at a concrete two-element list with absent codec
fields. -/
theorem c10_absent_codec_fields_witness :
    (∃ b, selectBest [allAbsentA, allAbsentB] = .ok b ∧ b ∈ [allAbsentA, allAbsentB]
       ∧ ∀ g ∈ [allAbsentA, allAbsentB], heightD g ≤ heightD b)
    ∧ (∃ b, selectGladiaAudio [allAbsentA, allAbsentB] = .ok b ∧ b ∈ [allAbsentA, allAbsentB]
       ∧ ∀ g ∈ [allAbsentA, allAbsentB], heightD g ≤ heightD b) :=
  c10_absent_codec_fields [allAbsentA, allAbsentB] (by decide) (by decide)

/- ### C3 and C6: selector behaviour and the swallowed 400 status -/

/-- 480p with both codecs. -/
def f480 : Format := ⟨"f480", some 480, some "avc1", some "mp4a.40.2", some "http://u480", none⟩

/-- 1080p with both codecs. -/
def f1080 : Format := ⟨"f1080", some 1080, some "avc1", some "mp4a.40.2", some "http://u1080", none⟩

/-- 720p video-only (`acodec` is the literal string `'none'`). -/
def f720v : Format := ⟨"f720", some 720, some "avc1", some "none", some "http://u720", none⟩

/-- Audio-only, no height field. -/
def aOnly1 : Format := ⟨"a1", none, some "none", some "mp4a.40.2", some "http://ua1", none⟩

/-- Audio-only, height 99. -/
def aOnly2 : Format := ⟨"a2", some 99, some "none", some "opus", some "http://ua2", none⟩

/-- A format with neither codec (`vcodec` and `acodec` both `'none'`). -/
def noAV : Format := ⟨"nx", some 100, some "none", some "none", some "http://unx", none⟩

/-- Metadata whose only format has no audio and no video. -/
def noAVInfo : MediaInfo := ⟨some "t", some 5, [noAV]⟩

/-- C3: the `"best"` selector picks the greatest-height format having
both codecs (1080 over the claim's example list), falls back to the
first audio-bearing format when no format has both codecs, and errors
with the `"No suitable format found"` `HTTPException(400, ...)` when no
format has audio — but the `/extract-url` handler's own blanket
`except Exception` catches that exception, so the observable response
status is 500, not the claimed 400. -/
theorem c3_best_selector_and_status :
    selectBest [f480, f1080, f720v] = .ok f1080
    ∧ selectBest [f720v, aOnly1, aOnly2] = .ok aOnly1
    ∧ selectBest [noAV] = .error (.http 400 "No suitable format found")
    ∧ errStatus (extractUrlResult noAVInfo "best") = some 500
    ∧ errStatus (extractUrlResult noAVInfo "best") ≠ some 400 := by
  refine ⟨rfl, rfl, rfl, rfl, by decide⟩

/-- 360p with audio for the C6 example. -/
def g360 : Format := ⟨"g360", some 360, some "avc1", some "mp4a.40.2", some "http://g360", none⟩

/-- 720p video-only for the C6 example. -/
def g720v : Format := ⟨"g720", some 720, some "avc1", some "none", some "http://g720", none⟩

/-- 480p audio-bearing for the C6 example. -/
def g480 : Format := ⟨"g480", some 480, some "none", some "mp4a.40.2", some "http://g480", none⟩

/-- Metadata whose only format is video-only. -/
def noAudioInfo : MediaInfo := ⟨some "t", some 10, [g720v]⟩

/-- C6: the `/gladia-url` selector considers only audio-bearing formats
(it returns the 480p audio format over a 720p video-only one) and, when
no format bears audio, errors with the distinct `"No audio format found
- required for transcription"` `HTTPException(400, ...)` — but the
handler's blanket `except Exception` catches that exception and re-raises
status 500, so the request does not fail with the claimed HTTP 400. -/
theorem c6_audio_selector_and_status :
    selectGladiaAudio [g360, g720v, g480] = .ok g480
    ∧ selectGladiaAudio [g720v] =
        .error (.http 400 "No audio format found - required for transcription")
    ∧ errStatus (gladiaUrlResult noAudioInfo "auto") = some 500
    ∧ errStatus (gladiaUrlResult noAudioInfo "auto") ≠ some 400 := by
  refine ⟨rfl, rfl, rfl, by decide⟩

/- ### C5: Gladia compatibility thresholds -/

theorem durFlag (d : Nat) :
    ((if d ≠ 0 then (d : ℚ) / 60 else 0) > 135) ↔ 135 * 60 < d := by
  by_cases h : d = 0
  · subst h
    norm_num
  · rw [if_pos h, gt_iff_lt, lt_div_iff₀ (by norm_num : (0:ℚ) < 60)]
    norm_cast

theorem sizeFlag (s : Nat) :
    ((if s ≠ 0 then (s : ℚ) / (1024 * 1024) else 0) > 1000) ↔
      1000 * 1024 * 1024 < s := by
  by_cases h : s = 0
  · subst h
    norm_num
  · rw [if_pos h, gt_iff_lt, lt_div_iff₀ (by norm_num : (0:ℚ) < 1024 * 1024)]
    rw [show (1000 : ℚ) * (1024 * 1024) = ((1000 * 1024 * 1024 : Nat) : ℚ) by norm_num]
    norm_cast

/-- The rational threshold checks reduce to integer comparisons against
8100 seconds and 1048576000 bytes. -/
theorem gladiaCheck_spec (d s : Nat) :
    gladiaCheck d s =
      (if 135 * 60 < d then
         if 1000 * 1024 * 1024 < s then
           (false, [.durationExceedsLimit, .fileSizeExceedsLimit])
         else (false, [.durationExceedsLimit])
       else
         if 1000 * 1024 * 1024 < s then (false, [.fileSizeExceedsLimit])
         else (true, [])) := by
  unfold gladiaCheck
  simp only [durFlag, sizeFlag]
  by_cases hd : 135 * 60 < d <;> by_cases hs : 1000 * 1024 * 1024 < s <;>
    simp [hd, hs]

/-- Metadata for a compatible media item: 134 minutes, 500 MB. -/
def gladiaOkInfo : MediaInfo :=
  ⟨some "t", some (134 * 60),
   [⟨"c5f", some 720, some "avc1", some "mp4a.40.2", some "http://c5",
     some (500 * 1024 * 1024)⟩]⟩

/-- Metadata for an over-long media item: 136 minutes, no size field. -/
def gladiaLongInfo : MediaInfo :=
  ⟨some "t", some (136 * 60),
   [⟨"c5g", some 720, some "avc1", some "mp4a.40.2", some "http://c5g", none⟩]⟩

/-- C5: `gladia_compatible` is true with an empty `compatibility_issues`
list exactly when the duration is at most 135 minutes and the selected
format's file size is at most 1000 MB (absent values counting as 0); at
duration `136*60` the result is incompatible with a duration violation,
and at duration `134*60` with 500 MB it is compatible with no issues,
also through the full `/gladia-url` handler body. -/
theorem c5_gladia_compatibility :
    (∀ d s : Nat,
      ((gladiaCheck d s).1 = true ∧ (gladiaCheck d s).2 = []) ↔
        (d ≤ 135 * 60 ∧ s ≤ 1000 * 1024 * 1024))
    ∧ gladiaCheck (136 * 60) 0 = (false, [.durationExceedsLimit])
    ∧ gladiaCheck (134 * 60) (500 * 1024 * 1024) = (true, [])
    ∧ (runGladiaUrl gladiaOkInfo "auto").map
        (fun p => (p.gladia_compatible, p.compatibility_issues)) = .ok (true, [])
    ∧ (runGladiaUrl gladiaLongInfo "auto").map
        (fun p => (p.gladia_compatible, p.compatibility_issues)) =
        .ok (false, [.durationExceedsLimit]) := by
  have hok : gladiaCheck (134 * 60) (500 * 1024 * 1024) = (true, []) := by
    rw [gladiaCheck_spec]; decide
  have hlong : gladiaCheck (136 * 60) 0 = (false, [.durationExceedsLimit]) := by
    rw [gladiaCheck_spec]; decide
  refine ⟨?_, hlong, hok, ?_, ?_⟩
  · intro d s
    rw [gladiaCheck_spec]
    by_cases hd : 135 * 60 < d <;> by_cases hs : 1000 * 1024 * 1024 < s <;>
      simp [hd, hs] <;> omega
  · show (Except.ok (GladiaPayload.mk "http://c5" "t" (134 * 60) (500 * 1024 * 1024)
      true (gladiaCheck (134 * 60) (500 * 1024 * 1024)).1
      (gladiaCheck (134 * 60) (500 * 1024 * 1024)).2 none "auto")).map
        (fun p => (p.gladia_compatible, p.compatibility_issues)) = .ok (true, [])
    rw [hok]
    rfl
  · show (Except.ok (GladiaPayload.mk "http://c5g" "t" (136 * 60) 0
      true (gladiaCheck (136 * 60) 0).1
      (gladiaCheck (136 * 60) 0).2 none "auto")).map
        (fun p => (p.gladia_compatible, p.compatibility_issues)) =
        .ok (false, [.durationExceedsLimit])
    rw [hlong]
    rfl

/- ### C2: the specific-format branch -/

/-- The per-format acceptance test of the scan when
`int(hint.replace('p', ''))` evaluates to `n`: id match first, then
height match. -/
def specMatches (hint : String) (n : Int) (f : Format) : Bool :=
  f.format_id == hint || f.height == some n

theorem specLoop_first (hint : String) (n : Int)
    (hn : pyIntOfString (pyRemoveP hint) = some n) :
    ∀ (l₁ : List Format) (f : Format) (l₂ : List Format),
      specMatches hint n f = true → (∀ g ∈ l₁, specMatches hint n g = false) →
      specLoop hint (l₁ ++ f :: l₂) = .ok (some f) := by
  intro l₁
  induction l₁ with
  | nil =>
    intro f l₂ hf _
    rw [List.nil_append]
    unfold specLoop
    by_cases hid : (f.format_id == hint) = true
    · rw [if_pos hid]
    · rw [if_neg hid, hn]
      have hh : (f.height == some n) = true := by
        rcases Bool.or_eq_true_iff.mp hf with h | h
        · exact absurd h hid
        · exact h
      show (if (f.height == some n) = true then Except.ok (some f)
            else specLoop hint l₂) = Except.ok (some f)
      rw [if_pos hh]
  | cons g l₁ ih =>
    intro f l₂ hf hall
    have hg := hall g (List.mem_cons_self g l₁)
    have hgid : (g.format_id == hint) = false := by
      revert hg
      unfold specMatches
      cases g.format_id == hint <;> simp
    have hgh : (g.height == some n) = false := by
      revert hg
      unfold specMatches
      cases g.height == some n <;> simp
    rw [List.cons_append]
    unfold specLoop
    rw [if_neg (by rw [hgid]; exact fun h => Bool.noConfusion h), hn]
    show (if (g.height == some n) = true then Except.ok (some g)
          else specLoop hint (l₁ ++ f :: l₂)) = Except.ok (some f)
    rw [if_neg (by rw [hgh]; exact fun h => Bool.noConfusion h)]
    exact ih f l₂ hf (fun x hx => hall x (List.mem_cons_of_mem g hx))

theorem specLoop_allMiss (hint : String) (n : Int)
    (hn : pyIntOfString (pyRemoveP hint) = some n) :
    ∀ fs : List Format, (∀ f ∈ fs, specMatches hint n f = false) →
      specLoop hint fs = .ok none := by
  intro fs
  induction fs with
  | nil => intro _; rfl
  | cons f rest ih =>
    intro hall
    have hf := hall f (List.mem_cons_self f rest)
    have hfid : (f.format_id == hint) = false := by
      revert hf
      unfold specMatches
      cases f.format_id == hint <;> simp
    have hfh : (f.height == some n) = false := by
      revert hf
      unfold specMatches
      cases f.height == some n <;> simp
    unfold specLoop
    rw [if_neg (by rw [hfid]; exact fun h => Bool.noConfusion h), hn]
    show (if (f.height == some n) = true then Except.ok (some f)
          else specLoop hint rest) = Except.ok none
    rw [if_neg (by rw [hfh]; exact fun h => Bool.noConfusion h)]
    exact ih (fun x hx => hall x (List.mem_cons_of_mem f hx))

/-- C2 (amended): the specific-format branch compares the hint against
`format_id`, and against heights using `int(hint.replace('p', ''))` —
so any hint whose digits remain after deleting every `p` matches by
height (`"720"` as well as `"720p"`), the first format matching either
test wins, the first element is the fallback only when the integer
conversion succeeds, and when the conversion fails (`ValueError`) the
selection only succeeds if the very first format's id equals the hint. -/
theorem c2_specific_selection (hint : String) (fs : List Format) (n : Int) :
    (pyIntOfString (pyRemoveP hint) = some n →
      ((∀ (l₁ : List Format) (f : Format) (l₂ : List Format),
          fs = l₁ ++ f :: l₂ → specMatches hint n f = true →
          (∀ g ∈ l₁, specMatches hint n g = false) →
          selectSpecific hint fs = .ok f)
       ∧ ((∀ f ∈ fs, specMatches hint n f = false) →
          ∀ (f₀ : Format) (rest : List Format), fs = f₀ :: rest →
            selectSpecific hint fs = .ok f₀)))
    ∧ (pyIntOfString (pyRemoveP hint) = none →
        ∀ (f₀ : Format) (rest : List Format), fs = f₀ :: rest →
          ((f₀.format_id = hint → selectSpecific hint fs = .ok f₀)
           ∧ (f₀.format_id ≠ hint →
                selectSpecific hint fs = .error .valueError))) := by
  refine ⟨fun hn => ⟨?_, ?_⟩, fun hn f₀ rest hfs => ⟨?_, ?_⟩⟩
  · intro l₁ f l₂ hfs hf hall
    subst hfs
    unfold selectSpecific
    rw [specLoop_first hint n hn l₁ f l₂ hf hall]
  · intro hall f₀ rest hfs
    subst hfs
    unfold selectSpecific
    rw [specLoop_allMiss hint n hn _ hall]
  · intro hid
    subst hfs
    unfold selectSpecific specLoop
    rw [if_pos (by rw [hid]; exact beq_self_eq_true hint)]
  · intro hid
    subst hfs
    unfold selectSpecific specLoop
    rw [if_neg (by simpa using hid), hn]

/-- First demo format: id `"a"`, height 480. -/
def specDemoA : Format := ⟨"a", some 480, some "avc1", some "mp4a.40.2", some "http://da", none⟩

/-- Second demo format: id `"b"`, height 720. -/
def specDemoB : Format := ⟨"b", some 720, some "avc1", some "mp4a.40.2", some "http://db", none⟩

/-- Witness for C2's amended theorem: hint `"720p"` selects the height-720
format. -/
theorem c2_specific_selection_witness :
    selectSpecific "720p" [specDemoA, specDemoB] = .ok specDemoB :=
  ((c2_specific_selection "720p" [specDemoA, specDemoB] 720).1 (by decide)).1
    [specDemoA] specDemoB [] rfl (by decide) (by decide)

/-- The claim's own selection rule, written from its words: an exact
`format_id` match, or — only when the hint has the shape `<number>p` —
a height match; the first such format wins, and otherwise the first
element is returned, never an error. -/
def claimHintHeight (hint : String) : Option Int :=
  match hint.data.reverse with
  | 'p' :: rev =>
    if rev ≠ [] ∧ rev.reverse.all isAsciiDigit then
      some (digitsVal rev.reverse : Int)
    else none
  | _ => none

/-- The selection C2 describes, as a total function on non-empty lists. -/
def claimSelectSpecific (hint : String) (fs : List Format) : Option Format :=
  match fs.find? (fun f => f.format_id == hint ||
      (match claimHintHeight hint with
       | some n => f.height == some n
       | none => false)) with
  | some f => some f
  | none => fs.head?

/-- C2 counterexample: with hint `"720"` (no trailing `p`) and no id
match, the claim prescribes falling back to the first element, but the
code selects the height-720 format because it strips `p`s and parses
the rest; and with the non-numeric hint `"xyz"` the claim says selection
never fails, but the code raises `ValueError`. -/
theorem c2_counterexample :
    claimSelectSpecific "720" [specDemoA, specDemoB] = some specDemoA
    ∧ selectSpecific "720" [specDemoA, specDemoB] = .ok specDemoB
    ∧ specDemoA ≠ specDemoB
    ∧ selectSpecific "xyz" [specDemoA, specDemoB] = .error .valueError := by
  refine ⟨rfl, rfl, by decide, rfl⟩

/- ## Temp-file resolution (src/main.py lines 246-269) -/

/-- Python `name.startswith(uid)` on codepoint lists. -/
def pyStartsWith (name uid : String) : Bool := uid.data.isPrefixOf name.data

/-- The download-lifecycle failure: the `HTTPException(500, ...)` whose
detail embeds `available_files[:10]`. -/
inductive DlErr where
  | fileNotFound (shown : List String)
deriving DecidableEq

/-- The scan loop (lines 249-252): the first directory entry whose name
starts with the identifier, joined onto the scratch directory. -/
def findDownloadedFile (entries : List String) (uid : String) : Option String :=
  (entries.find? (fun f => pyStartsWith f uid)).map (fun f => "/tmp/" ++ f)

/-- Resolution including the failure branch (lines 260-269), whose error
reports `available_files[:10]`. -/
def resolveDownloadedFile (entries : List String) (uid : String) :
    Except DlErr String :=
  match findDownloadedFile entries uid with
  | some p => .ok p
  | none => .error (.fileNotFound (entries.take 10))

theorem find?_append_first {p : α → Bool} :
    ∀ (l₁ : List α) (e : α) (l₂ : List α), p e = true →
      (∀ g ∈ l₁, p g = false) → (l₁ ++ e :: l₂).find? p = some e := by
  intro l₁
  induction l₁ with
  | nil =>
    intro e l₂ he _
    rw [List.nil_append]
    exact List.find?_cons_of_pos l₂ he
  | cons g l₁ ih =>
    intro e l₂ he hall
    rw [List.cons_append,
      List.find?_cons_of_neg _ (by
        rw [hall g (List.mem_cons_self g l₁)]
        exact fun h => Bool.noConfusion h)]
    exact ih e l₂ he (fun x hx => hall x (List.mem_cons_of_mem g hx))

/-- C8: the produced file is resolved as the first scratch-directory
entry whose name starts with the request identifier (e.g. `abc12345.mp4`
for identifier `abc12345` among unrelated entries), and when no entry
starts with the identifier, the request fails with the file-not-found
error reporting at most the first 10 entries of the listing. -/
theorem c8_resolve_downloaded_file :
    (∀ (entries : List String) (uid : String) (l₁ : List String) (e : String)
        (l₂ : List String),
      entries = l₁ ++ e :: l₂ → pyStartsWith e uid = true →
      (∀ g ∈ l₁, pyStartsWith g uid = false) →
      resolveDownloadedFile entries uid = .ok ("/tmp/" ++ e))
    ∧ (∀ (entries : List String) (uid : String),
        (∀ e ∈ entries, pyStartsWith e uid = false) →
        resolveDownloadedFile entries uid = .error (.fileNotFound (entries.take 10))
        ∧ (entries.take 10).length ≤ 10)
    ∧ resolveDownloadedFile ["other.bin", "abc12345.mp4", "zzz.txt"] "abc12345" =
        .ok "/tmp/abc12345.mp4" := by
  refine ⟨?_, ?_, rfl⟩
  · intro entries uid l₁ e l₂ hfs he hall
    subst hfs
    unfold resolveDownloadedFile findDownloadedFile
    rw [find?_append_first l₁ e l₂ he hall]
    rfl
  · intro entries uid hall
    refine ⟨?_, ?_⟩
    · unfold resolveDownloadedFile findDownloadedFile
      rw [List.find?_eq_none.mpr (fun x hx => by
        rw [hall x hx]
        exact fun h => Bool.noConfusion h)]
      rfl
    · rw [List.length_take]
      exact Nat.min_le_left 10 _

/-- Witness for C8 at concrete listings: one containing a matching entry
and one containing none. -/
theorem c8_resolve_downloaded_file_witness :
    resolveDownloadedFile ["x.txt", "abc12345.mp4"] "abc12345" =
      .ok ("/tmp/" ++ "abc12345.mp4")
    ∧ (resolveDownloadedFile ["x.txt"] "abc12345" =
        .error (.fileNotFound (["x.txt"].take 10))
       ∧ ((["x.txt"] : List String).take 10).length ≤ 10) :=
  ⟨c8_resolve_downloaded_file.1 ["x.txt", "abc12345.mp4"] "abc12345"
     ["x.txt"] "abc12345.mp4" [] rfl (by decide) (by decide),
   c8_resolve_downloaded_file.2.1 ["x.txt"] "abc12345" (by decide)⟩

/- ## Streaming cleanup generator (src/main.py lines 272-283) -/

/-- The three ways the `iterfile` generator's scope can exit: the body
yields every byte, `open`/`yield` raises an IO error carrying a message,
or the consumer abandons the stream (Python closes the generator, which
raises `GeneratorExit` at the yield point). -/
inductive StreamEnd where
  | completed
  | readError (msg : String)
  | clientClosed
deriving DecidableEq

/-- What escapes the generator: nothing, the re-raised
`HTTPException(500, "Error reading file: ...")` from the `except` clause,
or `GeneratorExit`, which is not an `Exception` subclass and therefore
passes the `except Exception` clause untouched. -/
inductive GenExc where
  | httpExc (status : Nat) (detail : String)
  | generatorExit
deriving DecidableEq

/-- The `iterfile` generator (lines 272-283) over an abstract directory
listing: the `try` body's outcome per exit mode, the `except Exception`
clause turning a read error into `HTTPException(500, ...)`, and the
`finally` clause best-effort deleting the file (`except: pass` swallows
a failing `os.unlink`, modelled by the `unlinkFails` flag). -/
def iterfile (files : List String) (path : String) (unlinkFails : Bool)
    (mode : StreamEnd) : Except GenExc Unit × List String :=
  let handled : Except GenExc Unit :=
    match mode with
    | .completed => .ok ()
    | .readError msg => .error (.httpExc 500 ("Error reading file: " ++ msg))
    | .clientClosed => .error .generatorExit
  let cleaned : List String :=
    if unlinkFails then files else files.filter (fun q => q ≠ path)
  (handled, cleaned)

/-- C4: whatever way the stream scope exits — normal completion, a read
error, or early termination by the consumer — the temp file is gone from
the directory afterwards when deletion succeeds, and a failing deletion
is swallowed: it never changes the generator's outcome. -/
theorem c4_iterfile_cleanup :
    ∀ (files : List String) (path : String) (mode : StreamEnd),
      path ∉ (iterfile files path false mode).2
      ∧ ∀ unlinkFails,
          (iterfile files path unlinkFails mode).1 =
            (iterfile files path false mode).1 := by
  intro files path mode
  refine ⟨?_, fun _ => rfl⟩
  intro hmem
  have h : path ∈ files.filter (fun q => decide (q ≠ path)) := hmem
  rw [List.mem_filter] at h
  exact (of_decide_eq_true h.2) rfl

/- ## Download response headers (src/main.py lines 217-223 and 285-294) -/

/-- UTF-8 encoding of one codepoint, as `str.encode('utf-8')` produces
(byte values as `Nat`). -/
def utf8Bytes (c : Char) : List Nat :=
  let n := c.toNat
  if n < 0x80 then [n]
  else if n < 0x800 then [0xC0 + n / 64, 0x80 + n % 64]
  else if n < 0x10000 then
    [0xE0 + n / 4096, 0x80 + n / 64 % 64, 0x80 + n % 64]
  else
    [0xF0 + n / 262144, 0x80 + n / 4096 % 64, 0x80 + n / 64 % 64, 0x80 + n % 64]

/-- `filename.encode('utf-8')` for a whole string. -/
def utf8Encode (s : String) : List Nat :=
  s.data.foldr (fun c acc => utf8Bytes c ++ acc) []

/-- Bytes `urllib.parse.quote` leaves unescaped: unreserved characters
plus the default `safe='/'`. -/
def quoteSafe (b : Nat) : Bool :=
  (48 ≤ b && b ≤ 57) || (65 ≤ b && b ≤ 90) || (97 ≤ b && b ≤ 122) ||
  b == 95 || b == 46 || b == 45 || b == 126 || b == 47

/-- Uppercase hexadecimal digit, as `quote` emits. -/
def hexUpper (n : Nat) : Char :=
  if n < 10 then Char.ofNat (48 + n) else Char.ofNat (55 + n)

/-- One byte of `urllib.parse.quote` output. -/
def pyQuoteByte (b : Nat) : List Char :=
  if quoteSafe b then [Char.ofNat b] else ['%', hexUpper (b / 16), hexUpper (b % 16)]

/-- `urllib.parse.quote(bytes)` (line 287). -/
def pyQuote (bs : List Nat) : String :=
  ⟨bs.foldr (fun b acc => pyQuoteByte b ++ acc) []⟩

/-- Lines 219-223: the response filename is the sanitized title plus the
hard-coded fallback `extension = "mp4"`, fixed before the download even
runs. -/
def downloadFilename (title : String) : String :=
  sanitize_filename title ++ "." ++ "mp4"

/-- The response metadata of `StreamingResponse` (lines 285-294). -/
structure ResponseMeta where
  mediaType : String
  contentDisposition : String
deriving DecidableEq

/-- Lines 285-294: media type and RFC 5987 `Content-Disposition` header.
`actualFilePath` is the resolved temp file; nothing from it flows into
the headers. -/
def downloadResponseMeta (title : String) (actualFilePath : String) : ResponseMeta :=
  { mediaType := "application/octet-stream"
    contentDisposition :=
      "attachment; filename*=UTF-8\x27\x27" ++ pyQuote (utf8Encode (downloadFilename title)) }

/-- C9: every successful `/download` response carries media type
`application/octet-stream` and a `Content-Disposition` header equal to
`attachment; filename*=UTF-8''<p>` where `<p>` percent-encodes the UTF-8
bytes of the sanitized title followed by `.mp4`; the `.mp4` extension is
used for every request, independent of the extension of the file the
extractor actually produced. -/
theorem c9_download_headers :
    ∀ (title actualFilePath : String),
      (downloadResponseMeta title actualFilePath).mediaType = "application/octet-stream"
      ∧ (downloadResponseMeta title actualFilePath).contentDisposition =
          "attachment; filename*=UTF-8\x27\x27" ++
            pyQuote (utf8Encode (sanitize_filename title ++ ".mp4"))
      ∧ (∀ otherPath, downloadResponseMeta title actualFilePath =
          downloadResponseMeta title otherPath)
      ∧ ∃ stem, downloadFilename title = stem ++ ".mp4" := by
  intro title actualFilePath
  have hfn : downloadFilename title = sanitize_filename title ++ ".mp4" := by
    unfold downloadFilename
    exact congrArg String.mk (List.append_assoc _ _ _)
  refine ⟨rfl, ?_, fun _ => rfl, ⟨sanitize_filename title, hfn⟩⟩
  unfold downloadResponseMeta
  rw [hfn]

end SMVD
